import Mathlib

/-!
Verification of the SmartStockAI ingestion-and-upsert engine against its
specification. The repository snapshot contains the design documents of the
backend pipeline (bulk upsert, retry state machine, bounded-concurrency
scheduler, orchestrator) and the frontend source. Backend behaviour is
modelled from the spec where the Python sources are absent; the frontend
sendQuery function is embedded from app/page.tsx.
-/

namespace SmartStock

/-! ## Definitions -/

/-! ### Bulk Upsert Store (spec 4.4, Data Deduplication Strategy) -/

/-- The natural keys of a table, in row order. -/
def keysOf {K V : Type} (t : List (K × V)) : List K :=
  t.map Prod.fst

/-- Modelled from the spec: section 4.4 Bulk Upsert Store and the Data
Deduplication Strategy document; the Python store code (for example
MetricsStore.bulk_upsert_quotes) is not in the repository snapshot. A store
table is a list of rows, each row a natural key paired with its non-key
columns. Upserting one record performs INSERT ... ON CONFLICT (natural key)
DO UPDATE: on a key collision every non-key column is overwritten with the
incoming value, otherwise the row is appended. -/
def upsertOne {K V : Type} [DecidableEq K] (t : List (K × V)) (r : K × V) :
    List (K × V) :=
  if r.1 ∈ keysOf t then
    t.map (fun row => if row.1 = r.1 then (row.1, r.2) else row)
  else
    t ++ [r]

/-- Modelled from the spec: bulk_upsert batches a record list into set-based
insert-with-conflict-resolution, processed in order (last write wins per
batch). -/
def bulk_upsert {K V : Type} [DecidableEq K] (t : List (K × V))
    (rs : List (K × V)) : List (K × V) :=
  rs.foldl upsertOne t

/-- First-match lookup of a natural key in a table. -/
def lookupRow {K V : Type} [DecidableEq K] : List (K × V) → K → Option V
  | [], _ => none
  | row :: rest, k => if row.1 = k then some row.2 else lookupRow rest k

/-- The value of the last record with key k in a record list, if any
(last-write-wins semantics of a batch). -/
def lastWrite {K V : Type} [DecidableEq K] (rs : List (K × V)) (k : K) :
    Option V :=
  rs.foldl (fun acc r => if r.1 = k then some r.2 else acc) none

/-! ### Rate-Limited Fetch Client (spec 4.1, ingest_market_quotes.py docs) -/

/-- One provider response for one attempt: an HTTP status with its payload,
or a transport timeout. -/
inductive ProviderResp where
  | http (code : ℕ) (payload : ℕ)
  | timeout
deriving DecidableEq

/-- The HTTP code recorded for a response; the dead-letter log uses error
code 0 for timeouts and transport exceptions. -/
def respCode : ProviderResp → ℕ
  | .http c _ => c
  | .timeout => 0

/-- Transient outcome class: HTTP 500, 502, 503, 504 or a transport
timeout. -/
def isTransientResp : ProviderResp → Bool
  | .timeout => true
  | .http c _ => c == 500 || c == 502 || c == 503 || c == 504

/-- Final outcome of one fetch-client invocation. -/
inductive FetchResult where
  | success (payload : ℕ)
  | deadLetter (code : ℕ)
  | fatalAbort (code : ℕ)
deriving DecidableEq

/-- Result of a fetch together with the total time spent waiting (seconds)
and the number of transient retries consumed. -/
structure FetchDone where
  result : FetchResult
  elapsed : ℚ
  retriesUsed : ℕ
deriving DecidableEq

/-- Maximum retry count for transient errors. -/
def MAX_RETRIES : ℕ := 3

/-- Fixed cooldown for a 429 rate-limit response, in seconds. -/
def RATE_LIMIT_WAIT : ℚ := 10

/-- Modelled from the spec: section 4.1 Rate-Limited Fetch Client and the
error-handling logic documented for scripts/ingest_market_quotes.py (the
Python script is not in the repository snapshot). The provider is a sequence
of responses, one per attempt; js n is the random jitter added to the wait
that consumes the n-th unit of the retry budget. 2xx returns the payload;
401/403 aborts fatally; 400 dead-letters without retry; 429 waits the fixed
10 s cooldown and retries without touching the retry budget; a transient
error (5xx or timeout) waits 2 to the power rc seconds (1 s, 2 s, 4 s) plus
jitter and retries until MAX_RETRIES is exhausted, then dead-letters; any
other status dead-letters immediately. -/
def fetchGo (js : ℕ → ℚ) : List ProviderResp → ℕ → ℚ → FetchDone
  | [], rc, el => ⟨.deadLetter 0, el, rc⟩
  | .http c p :: rest, rc, el =>
    if 200 ≤ c ∧ c < 300 then ⟨.success p, el, rc⟩
    else if c = 401 ∨ c = 403 then ⟨.fatalAbort c, el, rc⟩
    else if c = 400 then ⟨.deadLetter 400, el, rc⟩
    else if c = 429 then fetchGo js rest rc (el + RATE_LIMIT_WAIT)
    else if isTransientResp (.http c p) then
      if rc < MAX_RETRIES then fetchGo js rest (rc + 1) (el + 2 ^ rc + js rc)
      else ⟨.deadLetter c, el, rc⟩
    else ⟨.deadLetter c, el, rc⟩
  | .timeout :: rest, rc, el =>
    if rc < MAX_RETRIES then fetchGo js rest (rc + 1) (el + 2 ^ rc + js rc)
    else ⟨.deadLetter 0, el, rc⟩

/-- One fetch-client invocation over a response sequence, starting with a
fresh retry budget and zero elapsed wait. -/
def fetchWithRetry (js : ℕ → ℚ) (resps : List ProviderResp) : FetchDone :=
  fetchGo js resps 0 0

/-! ### Scheduler outcome accounting (spec 4.2, error-handling sections) -/

/-- A dead-letter record: the structured JSON-lines entry appended to the
durable dead-letter sink (data/logs/failed_ingestion.log) for a failed
unit. The timestamp is modelled as a logical clock: the number of units
dispatched before this one. -/
structure DeadLetterRec where
  timestamp : ℕ
  symbol : String
  errorCode : ℕ
  errorMessage : String
deriving DecidableEq

/-- Dead-letter message recorded for a final error code, following the
documented log lines. -/
def dlMessage (c : ℕ) : String :=
  if c = 400 then "400 Bad Request - invalid ticker symbol"
  else "Transient error " ++ toString c ++ " after 3 retries"

/-- One unit of work: a ticker symbol together with the provider responses
its fetch will receive. -/
structure WorkUnit where
  symbol : String
  resps : List ProviderResp
deriving DecidableEq

/-- Whether a final fetch result is the fatal 401/403 class. -/
def isFatalResult : FetchResult → Bool
  | .fatalAbort _ => true
  | _ => false

/-- Scheduler run state: accounting of per-unit outcomes. -/
structure SchedAccount where
  dispatched : ℕ
  successes : ℕ
  deadLetters : List DeadLetterRec
  criticalLogs : ℕ
  aborted : Bool
deriving DecidableEq

/-- Modelled from the spec: sections 4.2 and 7 and the error-handling logic
documented for scripts/ingest_market_quotes.py (the Python script is not in
the repository snapshot). One accounting step of the scheduler for one unit
of the work list: once the run has been aborted by a fatal auth error no
further unit is dispatched; otherwise the fetch of the unit runs to its final
outcome: a success is counted, a dead-letter outcome appends the structured
record to the dead-letter sink and the run continues with the next unit,
and a fatal 401/403 outcome writes one critical log entry and aborts the
entire run. -/
def schedStep (js : ℕ → ℚ) (st : SchedAccount) (u : WorkUnit) : SchedAccount :=
  if st.aborted then st
  else
    match (fetchWithRetry js u.resps).result with
    | .success _ =>
      { st with
          dispatched := st.dispatched + 1,
          successes := st.successes + 1 }
    | .deadLetter c =>
      { st with
          dispatched := st.dispatched + 1,
          deadLetters := st.deadLetters ++
            [⟨st.dispatched, u.symbol, c, dlMessage c⟩] }
    | .fatalAbort _ =>
      { st with
          dispatched := st.dispatched + 1,
          criticalLogs := st.criticalLogs + 1,
          aborted := true }

/-- Initial accounting state of the scheduler. -/
def initSched : SchedAccount := ⟨0, 0, [], 0, false⟩

/-- Modelled from the spec: the scheduler drives every unit of the work list
and aggregates per-unit outcomes (retries happen entirely inside the Fetch
Client). -/
def runScheduler (js : ℕ → ℚ) (units : List WorkUnit) : SchedAccount :=
  units.foldl (schedStep js) initSched

/-! ### Orchestrator and run bookkeeping (spec 3, 4.5, 4.6) -/

/-- Behaviour of one task when the orchestrator runs it: completes with a
row count, raises a task-level exception, or hits the fatal
auth/authorization class. -/
inductive TaskResult where
  | ok (rows : ℕ)
  | exn (msg : String)
  | authFatal (msg : String)
deriving DecidableEq

/-- A named task together with the result its execution produces. -/
structure OrchTask where
  name : String
  result : TaskResult
deriving DecidableEq

/-- Whether a task result is the auth/authorization fatal class. -/
def isAuthFatal : TaskResult → Bool
  | .authFatal _ => true
  | _ => false

/-- A run-log row (sync_logs): one record per task execution. -/
structure RunLogEntry where
  taskName : String
  status : String
  rows : ℕ
  errorMessage : Option String
deriving DecidableEq

/-- The run-log entry recorded for a task: a successful task logs a success
row with the row count; any failure (caught exception or fatal class) logs
a failed row carrying the error text. -/
def entryFor (t : OrchTask) : RunLogEntry :=
  match t.result with
  | .ok rows => ⟨t.name, "success", rows, none⟩
  | .exn m => ⟨t.name, "failed", 0, some m⟩
  | .authFatal m => ⟨t.name, "failed", 0, some m⟩

/-- Orchestrator state: run-log rows written, records reported to the
secondary console channel when the log write itself failed, the names of
executed tasks in order, and whether the run was aborted by the auth-fatal
class. -/
structure OrchState where
  logs : List RunLogEntry
  console : List RunLogEntry
  executed : List String
  aborted : Bool
deriving DecidableEq

/-- Modelled from the spec: section 4.5 Run Bookkeeping: the log write
itself must never raise past the call; when writing the run-log row fails
the record is reported to the secondary console channel instead and the
orchestrator carries on. -/
def recordLog (writeOk : Bool) (e : RunLogEntry) (st : OrchState) : OrchState :=
  if writeOk then { st with logs := st.logs ++ [e] }
  else { st with console := st.console ++ [e] }

/-- Modelled from the spec: section 4.6 Orchestrator (scripts/daily_sync.py
is not in the repository snapshot). One orchestrator step: after an
auth-fatal abort no further task runs; otherwise the task executes, exactly
one run-log record is attempted for it regardless of outcome (a task-level
exception is caught and recorded as a failed entry with its error text,
then the orchestrator continues), and only the auth-fatal class aborts the
whole run. writeOk says whether the run-log write succeeds for a task
name. -/
def orchStep (writeOk : String → Bool) (st : OrchState) (t : OrchTask) :
    OrchState :=
  if st.aborted then st
  else
    let st1 := recordLog (writeOk t.name) (entryFor t)
      { st with executed := st.executed ++ [t.name] }
    match t.result with
    | .authFatal _ => { st1 with aborted := true }
    | _ => st1

/-- Initial orchestrator state. -/
def initOrch : OrchState := ⟨[], [], [], false⟩

/-- Modelled from the spec: run_all executes the ordered task list
strictly in order. -/
def run_all (writeOk : String → Bool) (tasks : List OrchTask) : OrchState :=
  tasks.foldl (orchStep writeOk) initOrch

/-! ### Record Transformer field mappings (spec 4.3, DATA_INGESTION_PLAN) -/

/-- A provider JSON item is modelled as an association list from field name
to numeric value; itemGet mirrors float(item.get(field, 0) or 0): a missing
field silently becomes the zero default. -/
def itemGet (item : List (String × ℚ)) (field : String) : ℚ :=
  match item.find? (fun kv => kv.1 == field) with
  | some kv => kv.2
  | none => 0

/-- The provider-field-to-canonical-column mapping used by the cash-flow
transformer, as quoted from scripts/ingest_financial_statements.py in
DATA_INGESTION_PLAN.md (canonical column paired with provider field; the
first entry misspells netCashUsedForInvestingActivities). -/
def cashFlowFieldMapping : List (String × String) :=
  [("investing_cash_flow", "netCashUsedForInvestingActivites"),
   ("financing_cash_flow", "netCashUsedProvidedByFinancingActivities")]

/-- The provider-field mapping used by the company-profile transformer, as
quoted from scripts/ingest_company_profiles.py in DATA_INGESTION_PLAN.md. -/
def profileFieldMapping : List (String × String) :=
  [("market_cap", "mktCap"), ("avg_volume", "volAvg")]

/-- Field names the provider actually returns on the cash-flow endpoint, as
documented in DATA_INGESTION_PLAN.md (correctly spelled
netCashUsedForInvestingActivities). -/
def providerCashFlowFields : List String :=
  ["netCashUsedForInvestingActivities",
   "netCashUsedProvidedByFinancingActivities", "netIncome",
   "operatingCashFlow", "freeCashFlow"]

/-- Field names the provider actually returns on the profile endpoint, as
documented in DATA_INGESTION_PLAN.md: marketCap and averageVolume, not
mktCap and volAvg. -/
def providerProfileFields : List String :=
  ["marketCap", "averageVolume", "companyName", "price", "beta"]

/-- Value produced by the transformer for one canonical column: look up the mapped
provider field in the item, with the zero default of itemGet. -/
def transformField (mapping : List (String × String)) (col : String)
    (item : List (String × ℚ)) : ℚ :=
  match mapping.find? (fun m => m.1 == col) with
  | some m => itemGet item m.2
  | none => 0

/-! ### Bounded concurrency (spec 4.2 and 5) -/

/-- State of a concurrency-capped scheduler run: units not yet started,
units in flight (started, holding a semaphore slot, not yet completed), and
completed units with their outcome (success or failure). -/
structure ConcState where
  pending : List String
  inFlight : List String
  done : List (String × Bool)
deriving DecidableEq

/-- Modelled from the spec: sections 4.2 and 5 (the asyncio scheduler
script is not in the repository snapshot). Interleaving small-step
semantics of the semaphore-capped scheduler: a step either starts the next
pending unit, which acquires a slot and therefore requires fewer than C
units in flight, or completes any in-flight unit with either outcome,
releasing its slot on both the success and the failure path. -/
inductive ConcStep (C : ℕ) : ConcState → ConcState → Prop
  | start (u : String) (rest fl : List String) (dn : List (String × Bool))
      (h : fl.length < C) :
      ConcStep C ⟨u :: rest, fl, dn⟩ ⟨rest, fl ++ [u], dn⟩
  | finish (b : Bool) (pend l1 l2 : List String) (u : String)
      (dn : List (String × Bool)) :
      ConcStep C ⟨pend, l1 ++ u :: l2, dn⟩ ⟨pend, l1 ++ l2, dn ++ [(u, b)]⟩

/-- States reachable from the initial state of a work list, in which no
unit has started or completed. -/
inductive ConcReachable (C : ℕ) (units : List String) : ConcState → Prop
  | init : ConcReachable C units ⟨units, [], []⟩
  | step {s s2 : ConcState} : ConcReachable C units s → ConcStep C s s2 →
      ConcReachable C units s2

/-! ### Frontend sendQuery (src/smartstock-frontend/app/page.tsx) -/

/-- A chat message as kept in the page state: role and content. -/
structure Msg where
  role : String
  content : String
deriving DecidableEq

/-- Outcome of the awaited fetch of POST /api/ask inside one sendQuery
call: the response was ok and parsed to a payload whose synthesis is the
given text, the response had a non-ok HTTP status, or fetch or json threw
(carrying the thrown Error message when the thrown value has one). -/
inductive FetchEvent where
  | ok (synthesis : String)
  | httpError (status : ℕ)
  | threw (msg : Option String)
deriving DecidableEq

/-- The JavaScript String.prototype.trim called by sendQuery, embedded as
whitespace stripping on both ends of the character list. -/
def jsTrim (s : String) : String :=
  String.mk
    (((s.data.dropWhile Char.isWhitespace).reverse.dropWhile
      Char.isWhitespace).reverse)

/-- Component state of the page: messages, input value, loading flag and
error banner. -/
structure PageState where
  messages : List Msg
  inputValue : String
  isLoading : Bool
  error : Option String
deriving DecidableEq

/-- Embedded from src/smartstock-frontend/app/page.tsx, sendQuery: the
guard returns without any state change or request when the query trims to
the empty string or a request is already in flight; otherwise the error is
cleared, the loading flag set, the user message appended and the input
cleared before the request is sent, and the awaited outcome either appends
the assistant message, or sets the error state (a non-ok status via throw
new Error of "API error: status", a thrown value via its message with the
fallback text), while the finally clause resets isLoading on every path.
The returned Bool records whether an HTTP request was issued. -/
def sendQuery (st : PageState) (query : String) (ev : FetchEvent) :
    PageState × Bool :=
  if jsTrim query = "" ∨ st.isLoading then (st, false)
  else
    let st1 : PageState :=
      { messages := st.messages ++ [⟨"user", query⟩],
        inputValue := "",
        isLoading := true,
        error := none }
    match ev with
    | .ok syn =>
      ({ st1 with
          messages := st1.messages ++ [⟨"assistant", syn⟩],
          isLoading := false }, true)
    | .httpError s =>
      ({ st1 with
          error := some ("API error: " ++ toString s),
          isLoading := false }, true)
    | .threw m =>
      ({ st1 with
          error := some (m.getD "An unexpected error occurred"),
          isLoading := false }, true)

/-! ## Theorems -/

theorem keysOf_cons {K V : Type} (row : K × V) (rest : List (K × V)) :
    keysOf (row :: rest) = row.1 :: keysOf rest := rfl

theorem keysOf_upsertOne_of_mem {K V : Type} [DecidableEq K]
    (t : List (K × V)) (r : K × V) (h : r.1 ∈ keysOf t) :
    keysOf (upsertOne t r) = keysOf t := by
  unfold upsertOne
  rw [if_pos h]
  unfold keysOf
  rw [List.map_map]
  apply List.map_congr_left
  intro row _
  by_cases hk : row.1 = r.1 <;> simp [hk]

theorem keysOf_upsertOne_of_not_mem {K V : Type} [DecidableEq K]
    (t : List (K × V)) (r : K × V) (h : r.1 ∉ keysOf t) :
    keysOf (upsertOne t r) = keysOf t ++ [r.1] := by
  unfold upsertOne
  rw [if_neg h]
  simp [keysOf]

theorem keysOf_upsertOne_nodup {K V : Type} [DecidableEq K]
    (t : List (K × V)) (r : K × V) (h : (keysOf t).Nodup) :
    (keysOf (upsertOne t r)).Nodup := by
  by_cases hm : r.1 ∈ keysOf t
  · rw [keysOf_upsertOne_of_mem t r hm]; exact h
  · rw [keysOf_upsertOne_of_not_mem t r hm]
    simp [List.nodup_append, h, hm]

theorem mem_keysOf_upsertOne_of_mem {K V : Type} [DecidableEq K]
    (t : List (K × V)) (r : K × V) (k : K) (h : k ∈ keysOf t) :
    k ∈ keysOf (upsertOne t r) := by
  by_cases hm : r.1 ∈ keysOf t
  · rw [keysOf_upsertOne_of_mem t r hm]; exact h
  · rw [keysOf_upsertOne_of_not_mem t r hm]; exact List.mem_append_left _ h

theorem mem_keysOf_upsertOne_self {K V : Type} [DecidableEq K]
    (t : List (K × V)) (r : K × V) : r.1 ∈ keysOf (upsertOne t r) := by
  by_cases hm : r.1 ∈ keysOf t
  · rw [keysOf_upsertOne_of_mem t r hm]; exact hm
  · rw [keysOf_upsertOne_of_not_mem t r hm]; simp

theorem keysOf_bulk_upsert_nodup {K V : Type} [DecidableEq K]
    (rs : List (K × V)) (t : List (K × V)) (h : (keysOf t).Nodup) :
    (keysOf (bulk_upsert t rs)).Nodup := by
  induction rs generalizing t with
  | nil => exact h
  | cons r rest ih => exact ih (upsertOne t r) (keysOf_upsertOne_nodup t r h)

theorem mem_keysOf_bulk_upsert_of_mem {K V : Type} [DecidableEq K]
    (rs : List (K × V)) (t : List (K × V)) (k : K) (h : k ∈ keysOf t) :
    k ∈ keysOf (bulk_upsert t rs) := by
  induction rs generalizing t with
  | nil => exact h
  | cons r rest ih =>
    exact ih (upsertOne t r) (mem_keysOf_upsertOne_of_mem t r k h)

theorem mem_keysOf_bulk_upsert_of_mem_records {K V : Type} [DecidableEq K]
    (rs : List (K × V)) (t : List (K × V)) (r : K × V) (h : r ∈ rs) :
    r.1 ∈ keysOf (bulk_upsert t rs) := by
  induction rs generalizing t with
  | nil => cases h
  | cons r0 rest ih =>
    rcases List.mem_cons.mp h with h0 | h0
    · subst h0
      exact mem_keysOf_bulk_upsert_of_mem rest (upsertOne t r) r.1
        (mem_keysOf_upsertOne_self t r)
    · exact ih (upsertOne t r0) h0

theorem keysOf_bulk_upsert_of_sub {K V : Type} [DecidableEq K]
    (rs : List (K × V)) (t : List (K × V))
    (h : ∀ r ∈ rs, r.1 ∈ keysOf t) :
    keysOf (bulk_upsert t rs) = keysOf t := by
  induction rs generalizing t with
  | nil => rfl
  | cons r rest ih =>
    have hr : r.1 ∈ keysOf t := h r (List.mem_cons_self r rest)
    have hk : keysOf (upsertOne t r) = keysOf t :=
      keysOf_upsertOne_of_mem t r hr
    have htail : keysOf (bulk_upsert (upsertOne t r) rest)
        = keysOf (upsertOne t r) := by
      apply ih
      intro r0 hr0
      rw [hk]
      exact h r0 (List.mem_cons_of_mem r hr0)
    calc keysOf (bulk_upsert t (r :: rest))
        = keysOf (bulk_upsert (upsertOne t r) rest) := rfl
      _ = keysOf (upsertOne t r) := htail
      _ = keysOf t := hk

theorem lookupRow_eq_none_iff {K V : Type} [DecidableEq K]
    (t : List (K × V)) (k : K) : lookupRow t k = none ↔ k ∉ keysOf t := by
  induction t with
  | nil => simp [lookupRow, keysOf]
  | cons row rest ih =>
    rw [keysOf_cons]
    by_cases h : row.1 = k
    · subst h
      simp [lookupRow]
    · have h2 : ¬(k = row.1) := fun hh => h hh.symm
      simp only [lookupRow, if_neg h, List.mem_cons, ih]
      tauto

theorem lookupRow_append {K V : Type} [DecidableEq K]
    (t1 t2 : List (K × V)) (k : K) :
    lookupRow (t1 ++ t2) k =
      match lookupRow t1 k with
      | some v => some v
      | none => lookupRow t2 k := by
  induction t1 with
  | nil => simp [lookupRow]
  | cons row rest ih =>
    by_cases h : row.1 = k <;> simp [lookupRow, h, ih]

theorem lookupRow_map_update {K V : Type} [DecidableEq K]
    (t : List (K × V)) (r : K × V) (k : K) :
    lookupRow (t.map (fun row => if row.1 = r.1 then (row.1, r.2) else row)) k =
      if k = r.1 then (lookupRow t k).map (fun _ => r.2) else lookupRow t k := by
  induction t with
  | nil => simp [lookupRow]
  | cons row rest ih =>
    simp only [List.map_cons]
    by_cases h1 : row.1 = r.1
    · by_cases h2 : k = r.1
      · have hrk : row.1 = k := by rw [h1, h2]
        simp [lookupRow, h1, hrk, h2]
      · have hrk : ¬(row.1 = k) := by
          rw [h1]; exact fun hh => h2 hh.symm
        have hrk2 : ¬(r.1 = k) := fun hh => h2 hh.symm
        simp [lookupRow, h1, hrk, h2, hrk2, ih]
    · by_cases h2 : row.1 = k
      · have hk2 : ¬(k = r.1) := by
          rw [← h2]; exact fun hh => h1 hh
        simp [lookupRow, h1, h2, hk2]
      · simp [lookupRow, h1, h2, ih]

theorem lookupRow_upsertOne {K V : Type} [DecidableEq K]
    (t : List (K × V)) (r : K × V) (k : K) :
    lookupRow (upsertOne t r) k =
      if k = r.1 then some r.2 else lookupRow t k := by
  by_cases hm : r.1 ∈ keysOf t
  · rw [upsertOne, if_pos hm, lookupRow_map_update]
    by_cases hk : k = r.1
    · subst hk
      rw [if_pos rfl, if_pos rfl]
      have hne : lookupRow t r.1 ≠ none := fun hnone =>
        ((lookupRow_eq_none_iff t r.1).mp hnone) hm
      rcases h : lookupRow t r.1 with _ | v
      · exact absurd h hne
      · simp
    · rw [if_neg hk, if_neg hk]
  · rw [upsertOne, if_neg hm, lookupRow_append]
    by_cases hk : k = r.1
    · subst hk
      have h0 : lookupRow t r.1 = none := by
        rw [lookupRow_eq_none_iff]; simpa using hm
      simp [h0, lookupRow]
    · rcases h : lookupRow t k with _ | v
      · have hrk : ¬(r.1 = k) := fun hh => hk hh.symm
        simp [lookupRow, hrk, hk]
      · simp [hk]

theorem lastWrite_foldl {K V : Type} [DecidableEq K]
    (rs : List (K × V)) (k : K) (init : Option V) :
    rs.foldl (fun acc r => if r.1 = k then some r.2 else acc) init =
      match lastWrite rs k with
      | some v => some v
      | none => init := by
  induction rs generalizing init with
  | nil => simp [lastWrite]
  | cons r rest ih =>
    have hcons : lastWrite (r :: rest) k =
        rest.foldl (fun acc r0 => if r0.1 = k then some r0.2 else acc)
          (if r.1 = k then some r.2 else none) := rfl
    rw [hcons, ih]
    have hl : List.foldl (fun acc r0 => if r0.1 = k then some r0.2 else acc)
        init (r :: rest) =
        rest.foldl (fun acc r0 => if r0.1 = k then some r0.2 else acc)
          (if r.1 = k then some r.2 else init) := rfl
    rw [hl, ih]
    rcases lastWrite rest k with _ | v <;> by_cases h : r.1 = k <;> simp [h]

theorem lookupRow_bulk_upsert {K V : Type} [DecidableEq K]
    (rs : List (K × V)) (t : List (K × V)) (k : K) :
    lookupRow (bulk_upsert t rs) k =
      match lastWrite rs k with
      | some v => some v
      | none => lookupRow t k := by
  induction rs generalizing t with
  | nil => simp [bulk_upsert, lastWrite]
  | cons r rest ih =>
    have h1 : bulk_upsert t (r :: rest) = bulk_upsert (upsertOne t r) rest := rfl
    rw [h1, ih]
    have hcons : lastWrite (r :: rest) k =
        rest.foldl (fun acc r0 => if r0.1 = k then some r0.2 else acc)
          (if r.1 = k then some r.2 else none) := rfl
    rw [hcons, lastWrite_foldl, lookupRow_upsertOne]
    rcases lastWrite rest k with _ | v
    · by_cases h : r.1 = k
      · subst h; simp
      · rw [if_neg h]
        rw [if_neg (fun hh => h hh.symm)]
    · simp

theorem table_ext {K V : Type} [DecidableEq K] (t1 t2 : List (K × V))
    (hk : keysOf t1 = keysOf t2) (hnd : (keysOf t1).Nodup)
    (hl : ∀ k, lookupRow t1 k = lookupRow t2 k) : t1 = t2 := by
  induction t1 generalizing t2 with
  | nil =>
    have h0 : keysOf t2 = [] := by rw [← hk]; rfl
    have h1 : t2.map Prod.fst = [] := h0
    exact (List.map_eq_nil_iff.mp h1).symm
  | cons row rest ih =>
    rcases t2 with _ | ⟨row2, rest2⟩
    · exact absurd hk (by simp [keysOf])
    · rw [keysOf_cons, keysOf_cons] at hk
      have hk1 : row.1 = row2.1 := (List.cons.injEq _ _ _ _ ▸ hk).1
      have hk2 : keysOf rest = keysOf rest2 := (List.cons.injEq _ _ _ _ ▸ hk).2
      rw [keysOf_cons] at hnd
      have hnd1 : row.1 ∉ keysOf rest := (List.nodup_cons.mp hnd).1
      have hnd2 : (keysOf rest).Nodup := (List.nodup_cons.mp hnd).2
      have hnotmem2 : row.1 ∉ keysOf rest2 := by rw [← hk2]; exact hnd1
      have hv : row.2 = row2.2 := by
        have hh := hl row.1
        have e1 : lookupRow (row :: rest) row.1 = some row.2 := by
          simp [lookupRow]
        have e2 : lookupRow (row2 :: rest2) row.1 = some row2.2 := by
          simp [lookupRow, hk1.symm]
        rw [e1, e2] at hh
        exact Option.some.inj hh
      have htail : rest = rest2 := by
        apply ih rest2 hk2 hnd2
        intro k0
        by_cases hkk : k0 = row.1
        · have hn1 : k0 ∉ keysOf rest := by rw [hkk]; exact hnd1
          have hn2 : k0 ∉ keysOf rest2 := by rw [hkk]; exact hnotmem2
          rw [(lookupRow_eq_none_iff rest k0).mpr hn1,
            (lookupRow_eq_none_iff rest2 k0).mpr hn2]
        · have hh := hl k0
          have hne1 : ¬(row.1 = k0) := fun he => hkk he.symm
          have e1 : lookupRow (row :: rest) k0 = lookupRow rest k0 := by
            simp [lookupRow, hne1]
          have e2 : lookupRow (row2 :: rest2) k0 = lookupRow rest2 k0 := by
            have hne : ¬(row2.1 = k0) := fun he => hkk (hk1 ▸ he).symm
            simp [lookupRow, hne]
          rw [e1, e2] at hh
          exact hh
      have hhead : row = row2 := Prod.ext hk1 hv
      rw [hhead, htail]

/-- C1: calling bulk_upsert with a record set R and then with R again leaves a
uniquely-keyed table in the same state as a single call (row count and content
unchanged by the second call), and no call inserts a second row for a natural
key that already exists: the key list of the result stays duplicate-free. -/
theorem bulk_upsert_idempotent_no_duplicates {K V : Type} [DecidableEq K]
    (t R : List (K × V)) (h : (keysOf t).Nodup) :
    bulk_upsert (bulk_upsert t R) R = bulk_upsert t R ∧
    (keysOf (bulk_upsert t R)).Nodup := by
  have hnd1 : (keysOf (bulk_upsert t R)).Nodup :=
    keysOf_bulk_upsert_nodup R t h
  refine ⟨?_, hnd1⟩
  have hsub : ∀ r ∈ R, r.1 ∈ keysOf (bulk_upsert t R) := fun r hr =>
    mem_keysOf_bulk_upsert_of_mem_records R t r hr
  apply table_ext
  · exact keysOf_bulk_upsert_of_sub R (bulk_upsert t R) hsub
  · exact keysOf_bulk_upsert_nodup R (bulk_upsert t R) hnd1
  · intro k
    rw [lookupRow_bulk_upsert, lookupRow_bulk_upsert]
    rcases h2 : lastWrite R k with _ | v <;> simp [h2]

/-- Witness for C1 at a concrete table and record set. -/
theorem bulk_upsert_idempotent_no_duplicates_witness :
    (keysOf [((1 : ℕ), (10 : ℕ))]).Nodup ∧
    (bulk_upsert (bulk_upsert [((1 : ℕ), (10 : ℕ))] [(1, 11), (2, 20), (1, 12)])
        [(1, 11), (2, 20), (1, 12)] =
      bulk_upsert [((1 : ℕ), (10 : ℕ))] [(1, 11), (2, 20), (1, 12)] ∧
    (keysOf (bulk_upsert [((1 : ℕ), (10 : ℕ))] [(1, 11), (2, 20), (1, 12)])).Nodup) :=
  ⟨by decide,
    bulk_upsert_idempotent_no_duplicates [((1 : ℕ), (10 : ℕ))]
      [(1, 11), (2, 20), (1, 12)] (by decide)⟩

theorem fetchGo_transient_step (js : ℕ → ℚ) (e : ProviderResp)
    (he : isTransientResp e = true) (rest : List ProviderResp) (rc : ℕ) (el : ℚ)
    (hrc : rc < MAX_RETRIES) :
    fetchGo js (e :: rest) rc el = fetchGo js rest (rc + 1) (el + 2 ^ rc + js rc) := by
  cases e with
  | timeout => simp [fetchGo, hrc]
  | http c p =>
    have hc : ((c = 500 ∨ c = 502) ∨ c = 503) ∨ c = 504 := by
      simpa [isTransientResp] using he
    rcases hc with ((h | h) | h) | h <;> subst h <;>
      norm_num [fetchGo, isTransientResp, hrc]

theorem fetchGo_transient_exhausted (js : ℕ → ℚ) (e : ProviderResp)
    (he : isTransientResp e = true) (rest : List ProviderResp) (el : ℚ) :
    fetchGo js (e :: rest) MAX_RETRIES el =
      ⟨.deadLetter (respCode e), el, MAX_RETRIES⟩ := by
  cases e with
  | timeout => simp [fetchGo, respCode]
  | http c p =>
    have hc : ((c = 500 ∨ c = 502) ∨ c = 503) ∨ c = 504 := by
      simpa [isTransientResp] using he
    rcases hc with ((h | h) | h) | h <;> subst h <;>
      norm_num [fetchGo, isTransientResp, respCode]

theorem fetchGo_success_200 (js : ℕ → ℚ) (p : ℕ) (rest : List ProviderResp)
    (rc : ℕ) (el : ℚ) :
    fetchGo js (.http 200 p :: rest) rc el = ⟨.success p, el, rc⟩ := by
  norm_num [fetchGo]

/-- C2: for a unit whose fetch receives a transient outcome (HTTP 500, 502,
503, 504 or a timeout) exactly MAX_RETRIES times followed by a 200, the
Fetch Client retries with exponential backoff 1 s, 2 s, 4 s plus jitter in
[0, 0.5] and returns the success payload, with total wait exactly
1 + 2 + 4 plus the three jitters, hence at least 7 seconds before jitter
and at most 8.5 seconds; after a fourth transient outcome the retry budget
is exhausted and the client emits a dead-letter outcome instead of raising. -/
theorem fetch_transient_backoff (js : ℕ → ℚ) (e1 e2 e3 e4 : ProviderResp)
    (p : ℕ)
    (he1 : isTransientResp e1 = true) (he2 : isTransientResp e2 = true)
    (he3 : isTransientResp e3 = true) (he4 : isTransientResp e4 = true)
    (hj0l : 0 ≤ js 0) (hj0u : js 0 ≤ 1 / 2)
    (hj1l : 0 ≤ js 1) (hj1u : js 1 ≤ 1 / 2)
    (hj2l : 0 ≤ js 2) (hj2u : js 2 ≤ 1 / 2) :
    fetchWithRetry js [e1, e2, e3, .http 200 p] =
      ⟨.success p, 1 + 2 + 4 + (js 0 + js 1 + js 2), 3⟩ ∧
    7 ≤ (fetchWithRetry js [e1, e2, e3, .http 200 p]).elapsed ∧
    (fetchWithRetry js [e1, e2, e3, .http 200 p]).elapsed ≤ 7 + 3 / 2 ∧
    fetchWithRetry js [e1, e2, e3, e4] =
      ⟨.deadLetter (respCode e4), 1 + 2 + 4 + (js 0 + js 1 + js 2), 3⟩ := by
  have h0 : (0 : ℕ) < MAX_RETRIES := by norm_num [MAX_RETRIES]
  have h1 : (1 : ℕ) < MAX_RETRIES := by norm_num [MAX_RETRIES]
  have h2 : (2 : ℕ) < MAX_RETRIES := by norm_num [MAX_RETRIES]
  have hel : (0 : ℚ) + 2 ^ 0 + js 0 + 2 ^ 1 + js 1 + 2 ^ 2 + js 2 =
      1 + 2 + 4 + (js 0 + js 1 + js 2) := by
    norm_num
    ring
  have hsucc : fetchWithRetry js [e1, e2, e3, .http 200 p] =
      ⟨.success p, 1 + 2 + 4 + (js 0 + js 1 + js 2), 3⟩ := by
    rw [fetchWithRetry,
      fetchGo_transient_step js e1 he1 _ 0 0 h0,
      fetchGo_transient_step js e2 he2 _ 1 _ h1,
      fetchGo_transient_step js e3 he3 _ 2 _ h2,
      fetchGo_success_200, hel]
  have hdead : fetchWithRetry js [e1, e2, e3, e4] =
      ⟨.deadLetter (respCode e4), 1 + 2 + 4 + (js 0 + js 1 + js 2), 3⟩ := by
    rw [fetchWithRetry,
      fetchGo_transient_step js e1 he1 _ 0 0 h0,
      fetchGo_transient_step js e2 he2 _ 1 _ h1,
      fetchGo_transient_step js e3 he3 _ 2 _ h2]
    have h3 : (2 : ℕ) + 1 = MAX_RETRIES := by norm_num [MAX_RETRIES]
    rw [h3, fetchGo_transient_exhausted js e4 he4, hel]
    norm_num [MAX_RETRIES]
  refine ⟨hsucc, ?_, ?_, hdead⟩
  · rw [hsucc]
    show (7 : ℚ) ≤ 1 + 2 + 4 + (js 0 + js 1 + js 2)
    linarith
  · rw [hsucc]
    show (1 : ℚ) + 2 + 4 + (js 0 + js 1 + js 2) ≤ 7 + 3 / 2
    linarith

/-- Witness for C2 at concrete transient responses and zero jitter. -/
theorem fetch_transient_backoff_witness :
    isTransientResp (.http 500 0) = true ∧
    isTransientResp (.http 502 0) = true ∧
    isTransientResp ProviderResp.timeout = true ∧
    isTransientResp (.http 504 0) = true ∧
    (fetchWithRetry (fun _ => 0) [.http 500 0, .http 502 0, .timeout, .http 200 42] =
        ⟨.success 42, 1 + 2 + 4 + (0 + 0 + 0), 3⟩ ∧
      7 ≤ (fetchWithRetry (fun _ => 0)
        [.http 500 0, .http 502 0, .timeout, .http 200 42]).elapsed ∧
      (fetchWithRetry (fun _ => 0)
        [.http 500 0, .http 502 0, .timeout, .http 200 42]).elapsed ≤ 7 + 3 / 2 ∧
      fetchWithRetry (fun _ => 0) [.http 500 0, .http 502 0, .timeout, .http 504 0] =
        ⟨.deadLetter (respCode (.http 504 0)), 1 + 2 + 4 + (0 + 0 + 0), 3⟩) :=
  ⟨by decide, by decide, by decide, by decide,
    fetch_transient_backoff (fun _ => 0) (.http 500 0) (.http 502 0) .timeout
      (.http 504 0) 42 (by decide) (by decide) (by decide) (by decide)
      (by norm_num) (by norm_num) (by norm_num) (by norm_num) (by norm_num)
      (by norm_num)⟩

theorem fetchGo_429_step (js : ℕ → ℚ) (x : ℕ) (rest : List ProviderResp)
    (rc : ℕ) (el : ℚ) :
    fetchGo js (.http 429 x :: rest) rc el = fetchGo js rest rc (el + 10) := by
  norm_num [fetchGo, RATE_LIMIT_WAIT]

theorem fetchGo_429_loop (js : ℕ → ℚ) (n x p : ℕ) (rc : ℕ) (el : ℚ) :
    fetchGo js (List.replicate n (.http 429 x) ++ [.http 200 p]) rc el =
      ⟨.success p, el + 10 * n, rc⟩ := by
  induction n generalizing el with
  | zero => simp [fetchGo_success_200]
  | succ m ih =>
    rw [List.replicate_succ, List.cons_append, fetchGo_429_step js x, ih]
    have harith : el + 10 + 10 * (m : ℚ) = el + 10 * ((m : ℕ) + 1 : ℕ) := by
      push_cast
      ring
    rw [harith]

/-- C4: an HTTP 429 makes the Fetch Client wait the fixed 10-second cooldown
and retry without consuming the transient-error retry budget: after any
number n of consecutive 429 responses followed by a 200, the client returns
the success payload, the elapsed wait is exactly 10 n seconds, and the
transient retry count consumed is still 0. -/
theorem fetch_429_cooldown_preserves_budget (js : ℕ → ℚ) (n x p : ℕ) :
    fetchWithRetry js (List.replicate n (.http 429 x) ++ [.http 200 p]) =
      ⟨.success p, 10 * n, 0⟩ := by
  have h := fetchGo_429_loop js n x p 0 0
  rw [fetchWithRetry, h]
  norm_num

theorem schedStep_aborted (js : ℕ → ℚ) (st : SchedAccount) (u : WorkUnit)
    (h : st.aborted = true) : schedStep js st u = st := by
  simp [schedStep, h]

theorem foldl_schedStep_aborted (js : ℕ → ℚ) (units : List WorkUnit)
    (st : SchedAccount) (h : st.aborted = true) :
    units.foldl (schedStep js) st = st := by
  induction units with
  | nil => rfl
  | cons u rest ih =>
    rw [List.foldl_cons, schedStep_aborted js st u h]
    exact ih

theorem schedStep_not_fatal (js : ℕ → ℚ) (st : SchedAccount) (u : WorkUnit)
    (hab : st.aborted = false)
    (hnf : isFatalResult (fetchWithRetry js u.resps).result = false) :
    (schedStep js st u).aborted = false ∧
    (schedStep js st u).dispatched = st.dispatched + 1 ∧
    (schedStep js st u).criticalLogs = st.criticalLogs ∧
    (∀ r ∈ st.deadLetters, r ∈ (schedStep js st u).deadLetters) := by
  rcases hres : (fetchWithRetry js u.resps).result with p | c | c
  · refine ⟨?_, ?_, ?_, ?_⟩ <;> simp [schedStep, hab, hres]
  · refine ⟨?_, ?_, ?_, ?_⟩ <;> simp [schedStep, hab, hres]
    intro r hr
    exact Or.inl hr
  · rw [hres] at hnf
    simp [isFatalResult] at hnf

theorem schedStep_deadLetter (js : ℕ → ℚ) (st : SchedAccount) (u : WorkUnit)
    (c : ℕ) (hab : st.aborted = false)
    (hu : (fetchWithRetry js u.resps).result = .deadLetter c) :
    schedStep js st u = { st with
      dispatched := st.dispatched + 1,
      deadLetters := st.deadLetters ++
        [⟨st.dispatched, u.symbol, c, dlMessage c⟩] } := by
  simp [schedStep, hab, hu]

theorem schedStep_fatal (js : ℕ → ℚ) (st : SchedAccount) (u : WorkUnit)
    (c : ℕ) (hab : st.aborted = false)
    (hu : (fetchWithRetry js u.resps).result = .fatalAbort c) :
    schedStep js st u = { st with
      dispatched := st.dispatched + 1,
      criticalLogs := st.criticalLogs + 1,
      aborted := true } := by
  simp [schedStep, hab, hu]

theorem foldl_schedStep_no_fatal (js : ℕ → ℚ) (units : List WorkUnit) :
    ∀ st : SchedAccount, st.aborted = false →
    (∀ u ∈ units, isFatalResult (fetchWithRetry js u.resps).result = false) →
    (units.foldl (schedStep js) st).aborted = false ∧
    (units.foldl (schedStep js) st).dispatched = st.dispatched + units.length ∧
    (units.foldl (schedStep js) st).criticalLogs = st.criticalLogs ∧
    (∀ r ∈ st.deadLetters, r ∈ (units.foldl (schedStep js) st).deadLetters) := by
  induction units with
  | nil =>
    intro st hab _
    exact ⟨hab, by simp, rfl, fun r hr => hr⟩
  | cons u rest ih =>
    intro st hab hnf
    have hu := hnf u (List.mem_cons_self u rest)
    have hstep := schedStep_not_fatal js st u hab hu
    have hrest := ih (schedStep js st u) hstep.1
      (fun v hv => hnf v (List.mem_cons_of_mem u hv))
    rw [List.foldl_cons]
    refine ⟨hrest.1, ?_, ?_, ?_⟩
    · rw [hrest.2.1, hstep.2.1, List.length_cons]
      omega
    · rw [hrest.2.2.1, hstep.2.2.1]
    · intro r hr
      exact hrest.2.2.2 r (hstep.2.2.2 r hr)

/-- C3: an HTTP 401 or 403 response makes the Fetch Client return a fatal
abort immediately, and a unit whose fetch ends in the fatal class aborts the
entire scheduler run: exactly one critical-severity log entry is written, no
unit after the fatal one is dispatched, and the run is marked aborted; a run
in which no unit ends in the fatal class is never aborted, so this is the
only outcome class that propagates past the unit boundary. -/
theorem scheduler_fatal_auth_aborts_run (js : ℕ → ℚ) (pre post : List WorkUnit)
    (u : WorkUnit) (c : ℕ) (hc : c = 401 ∨ c = 403)
    (hu : (fetchWithRetry js u.resps).result = .fatalAbort c)
    (hpre : ∀ v ∈ pre, isFatalResult (fetchWithRetry js v.resps).result = false) :
    (∀ p rest rc el, fetchGo js (.http 401 p :: rest) rc el =
      ⟨.fatalAbort 401, el, rc⟩) ∧
    (∀ p rest rc el, fetchGo js (.http 403 p :: rest) rc el =
      ⟨.fatalAbort 403, el, rc⟩) ∧
    (runScheduler js (pre ++ u :: post)).aborted = true ∧
    (runScheduler js (pre ++ u :: post)).criticalLogs = 1 ∧
    (runScheduler js (pre ++ u :: post)).dispatched = pre.length + 1 ∧
    (∀ units, (∀ v ∈ units,
        isFatalResult (fetchWithRetry js v.resps).result = false) →
      (runScheduler js units).aborted = false) := by
  have h1 := foldl_schedStep_no_fatal js pre initSched rfl hpre
  have hstep := schedStep_fatal js (pre.foldl (schedStep js) initSched) u c h1.1 hu
  have hrw : runScheduler js (pre ++ u :: post) =
      post.foldl (schedStep js)
        (schedStep js (pre.foldl (schedStep js) initSched) u) := by
    rw [runScheduler, List.foldl_append, List.foldl_cons]
  have habort : (schedStep js (pre.foldl (schedStep js) initSched) u).aborted
      = true := by rw [hstep]
  have hfin : runScheduler js (pre ++ u :: post) =
      schedStep js (pre.foldl (schedStep js) initSched) u := by
    rw [hrw, foldl_schedStep_aborted js post _ habort]
  refine ⟨?_, ?_, ?_, ?_, ?_, ?_⟩
  · intro p rest rc el
    norm_num [fetchGo]
  · intro p rest rc el
    norm_num [fetchGo]
  · rw [hfin, habort]
  · rw [hfin, hstep]
    have h0 : initSched.criticalLogs = 0 := rfl
    simp [h1.2.2.1, h0]
  · rw [hfin, hstep]
    have h0 : initSched.dispatched = 0 := rfl
    simp [h1.2.1, h0]
  · intro units hnf
    exact (foldl_schedStep_no_fatal js units initSched rfl hnf).1

/-- Witness for C3 at a concrete three-unit work list whose middle unit
receives a 401. -/
theorem scheduler_fatal_auth_aborts_run_witness :
    (runScheduler (fun _ => 0) [⟨"AAPL", [.http 200 1]⟩,
      ⟨"MSFT", [.http 401 0]⟩, ⟨"GOOG", [.http 200 2]⟩]).aborted = true ∧
    (runScheduler (fun _ => 0) [⟨"AAPL", [.http 200 1]⟩,
      ⟨"MSFT", [.http 401 0]⟩, ⟨"GOOG", [.http 200 2]⟩]).criticalLogs = 1 ∧
    (runScheduler (fun _ => 0) [⟨"AAPL", [.http 200 1]⟩,
      ⟨"MSFT", [.http 401 0]⟩, ⟨"GOOG", [.http 200 2]⟩]).dispatched = 2 := by
  have h := scheduler_fatal_auth_aborts_run (fun _ => 0)
    [⟨"AAPL", [.http 200 1]⟩] [⟨"GOOG", [.http 200 2]⟩]
    ⟨"MSFT", [.http 401 0]⟩ 401 (by decide) (by decide) (by decide)
  exact ⟨h.2.2.1, h.2.2.2.1, h.2.2.2.2.1⟩

/-- C5: an HTTP 400 response is never retried (the Fetch Client dead-letters
it immediately with error code 400, consuming no responses, no wait and no
retries), the unit is recorded in the dead-letter sink as a structured
record carrying timestamp, unit key, error code 400 and error message, and
the scheduler continues through every remaining unit of the work list. -/
theorem scheduler_400_dead_letter_continues (js : ℕ → ℚ)
    (pre post : List WorkUnit) (u : WorkUnit)
    (hu : (fetchWithRetry js u.resps).result = .deadLetter 400)
    (hnf : ∀ v ∈ pre ++ u :: post,
      isFatalResult (fetchWithRetry js v.resps).result = false) :
    (∀ p rest rc el, fetchGo js (.http 400 p :: rest) rc el =
      ⟨.deadLetter 400, el, rc⟩) ∧
    DeadLetterRec.mk pre.length u.symbol 400 (dlMessage 400) ∈
      (runScheduler js (pre ++ u :: post)).deadLetters ∧
    (runScheduler js (pre ++ u :: post)).dispatched = (pre ++ u :: post).length ∧
    (runScheduler js (pre ++ u :: post)).aborted = false := by
  have hpre : ∀ v ∈ pre, isFatalResult (fetchWithRetry js v.resps).result = false :=
    fun v hv => hnf v (List.mem_append_left _ hv)
  have hpost : ∀ v ∈ post, isFatalResult (fetchWithRetry js v.resps).result = false :=
    fun v hv => hnf v (List.mem_append_right _ (List.mem_cons_of_mem u hv))
  have h1 := foldl_schedStep_no_fatal js pre initSched rfl hpre
  have hd1 : (pre.foldl (schedStep js) initSched).dispatched = pre.length := by
    rw [h1.2.1, show initSched.dispatched = 0 from rfl, Nat.zero_add]
  have hstep := schedStep_deadLetter js (pre.foldl (schedStep js) initSched)
    u 400 h1.1 hu
  have hab2 : (schedStep js (pre.foldl (schedStep js) initSched) u).aborted
      = false := by
    rw [hstep]
    exact h1.1
  have h2 := foldl_schedStep_no_fatal js post
    (schedStep js (pre.foldl (schedStep js) initSched) u) hab2 hpost
  have hrw : runScheduler js (pre ++ u :: post) =
      post.foldl (schedStep js)
        (schedStep js (pre.foldl (schedStep js) initSched) u) := by
    rw [runScheduler, List.foldl_append, List.foldl_cons]
  refine ⟨?_, ?_, ?_, ?_⟩
  · intro p rest rc el
    norm_num [fetchGo]
  · rw [hrw]
    apply h2.2.2.2
    rw [hstep]
    simp [hd1]
  · rw [hrw, h2.2.1, hstep]
    simp [hd1]
    omega
  · rw [hrw]
    exact h2.1

/-- Witness for C5 at the documented end-to-end scenario: AAPL and MSFT
succeed, BADSYM receives a 400. -/
theorem scheduler_400_dead_letter_continues_witness :
    DeadLetterRec.mk 1 "BADSYM" 400 (dlMessage 400) ∈
      (runScheduler (fun _ => 0) [⟨"AAPL", [.http 200 1]⟩,
        ⟨"BADSYM", [.http 400 0]⟩, ⟨"MSFT", [.http 200 2]⟩]).deadLetters ∧
    (runScheduler (fun _ => 0) [⟨"AAPL", [.http 200 1]⟩,
      ⟨"BADSYM", [.http 400 0]⟩, ⟨"MSFT", [.http 200 2]⟩]).dispatched = 3 ∧
    (runScheduler (fun _ => 0) [⟨"AAPL", [.http 200 1]⟩,
      ⟨"BADSYM", [.http 400 0]⟩, ⟨"MSFT", [.http 200 2]⟩]).aborted = false := by
  have h := scheduler_400_dead_letter_continues (fun _ => 0)
    [⟨"AAPL", [.http 200 1]⟩] [⟨"MSFT", [.http 200 2]⟩]
    ⟨"BADSYM", [.http 400 0]⟩ (by decide) (by decide)
  exact ⟨h.2.1, h.2.2.1, h.2.2.2⟩

theorem orchStep_aborted (w : String → Bool) (st : OrchState) (t : OrchTask)
    (h : st.aborted = true) : orchStep w st t = st := by
  simp [orchStep, h]

theorem foldl_orchStep_aborted (w : String → Bool) (tasks : List OrchTask)
    (st : OrchState) (h : st.aborted = true) :
    tasks.foldl (orchStep w) st = st := by
  induction tasks with
  | nil => rfl
  | cons t rest ih =>
    rw [List.foldl_cons, orchStep_aborted w st t h]
    exact ih

theorem orchStep_not_fatal (w : String → Bool) (st : OrchState) (t : OrchTask)
    (hab : st.aborted = false) (hnf : isAuthFatal t.result = false) :
    (orchStep w st t).executed = st.executed ++ [t.name] ∧
    (orchStep w st t).aborted = false ∧
    (orchStep w st t).logs =
      st.logs ++ (if w t.name then [entryFor t] else []) ∧
    (orchStep w st t).console =
      st.console ++ (if w t.name then [] else [entryFor t]) := by
  rcases t with ⟨name, res⟩
  cases res with
  | ok rows =>
    by_cases hw : w name <;>
      refine ⟨?_, ?_, ?_, ?_⟩ <;> simp [orchStep, recordLog, hab, hw]
  | exn m =>
    by_cases hw : w name <;>
      refine ⟨?_, ?_, ?_, ?_⟩ <;> simp [orchStep, recordLog, hab, hw]
  | authFatal m => simp [isAuthFatal] at hnf

theorem orchStep_fatal (w : String → Bool) (st : OrchState) (t : OrchTask)
    (m : String) (hab : st.aborted = false) (ht : t.result = .authFatal m) :
    (orchStep w st t).aborted = true ∧
    (orchStep w st t).executed = st.executed ++ [t.name] := by
  rcases t with ⟨name, res⟩
  simp only at ht
  subst ht
  by_cases hw : w name <;>
    refine ⟨?_, ?_⟩ <;> simp [orchStep, recordLog, hab, hw]

theorem foldl_orchStep_no_fatal (w : String → Bool) (tasks : List OrchTask) :
    ∀ st : OrchState, st.aborted = false →
    (∀ t ∈ tasks, isAuthFatal t.result = false) →
    (tasks.foldl (orchStep w) st).executed =
      st.executed ++ tasks.map OrchTask.name ∧
    (tasks.foldl (orchStep w) st).logs =
      st.logs ++ (tasks.filter (fun t => w t.name)).map entryFor ∧
    (tasks.foldl (orchStep w) st).console =
      st.console ++ (tasks.filter (fun t => !w t.name)).map entryFor ∧
    (tasks.foldl (orchStep w) st).aborted = false := by
  induction tasks with
  | nil =>
    intro st hab _
    exact ⟨by simp, by simp, by simp, hab⟩
  | cons t rest ih =>
    intro st hab hnf
    have ht := hnf t (List.mem_cons_self t rest)
    have hstep := orchStep_not_fatal w st t hab ht
    have hrest := ih (orchStep w st t) hstep.2.1
      (fun v hv => hnf v (List.mem_cons_of_mem t hv))
    rw [List.foldl_cons]
    refine ⟨?_, ?_, ?_, hrest.2.2.2⟩
    · rw [hrest.1, hstep.1, List.map_cons, List.append_assoc]
      rfl
    · rw [hrest.2.1, hstep.2.2.1, List.filter_cons]
      by_cases hw : w t.name <;> simp [hw]
    · rw [hrest.2.2.1, hstep.2.2.2, List.filter_cons]
      by_cases hw : w t.name <;> simp [hw]

theorem length_filter_bool_split {α : Type} (p : α → Bool) (l : List α) :
    (l.filter p).length + (l.filter (fun x => !p x)).length = l.length := by
  induction l with
  | nil => rfl
  | cons a as ih =>
    by_cases h : p a <;> simp [List.filter_cons, h] <;> omega

/-- C6: run_all executes its tasks strictly in the given order and writes
exactly one run-log record per task regardless of outcome: the executed
names are the task list in order, the log rows are the per-task entries (a
caught task-level exception is recorded as a failed entry with its error
text and the orchestrator continues), a failed run-log write diverts the
record to the console channel without aborting the run, the record count
over both channels equals the task count, and a run without an auth-fatal
task is never aborted, while an auth-fatal task stops the run with no later
task executed. -/
theorem run_all_exactly_once_continues (writeOk : String → Bool)
    (tasks pre post : List OrchTask) (u : OrchTask) (m : String)
    (hnf : ∀ t ∈ tasks, isAuthFatal t.result = false)
    (hufatal : u.result = .authFatal m)
    (hpre : ∀ t ∈ pre, isAuthFatal t.result = false) :
    (run_all writeOk tasks).executed = tasks.map OrchTask.name ∧
    (run_all writeOk tasks).logs =
      (tasks.filter (fun t => writeOk t.name)).map entryFor ∧
    (run_all writeOk tasks).console =
      (tasks.filter (fun t => !writeOk t.name)).map entryFor ∧
    (run_all writeOk tasks).logs.length +
      (run_all writeOk tasks).console.length = tasks.length ∧
    (run_all writeOk tasks).aborted = false ∧
    (∀ name msg, entryFor ⟨name, .exn msg⟩ = ⟨name, "failed", 0, some msg⟩) ∧
    (run_all writeOk (pre ++ u :: post)).executed =
      pre.map OrchTask.name ++ [u.name] ∧
    (run_all writeOk (pre ++ u :: post)).aborted = true := by
  have h1 := foldl_orchStep_no_fatal writeOk tasks initOrch rfl hnf
  have hex : (run_all writeOk tasks).executed = tasks.map OrchTask.name := by
    rw [run_all, h1.1]
    rfl
  have hlog : (run_all writeOk tasks).logs =
      (tasks.filter (fun t => writeOk t.name)).map entryFor := by
    rw [run_all, h1.2.1]
    rfl
  have hcon : (run_all writeOk tasks).console =
      (tasks.filter (fun t => !writeOk t.name)).map entryFor := by
    rw [run_all, h1.2.2.1]
    rfl
  have h2 := foldl_orchStep_no_fatal writeOk pre initOrch rfl hpre
  have hstep := orchStep_fatal writeOk (pre.foldl (orchStep writeOk) initOrch)
    u m h2.2.2.2 hufatal
  have hrw : run_all writeOk (pre ++ u :: post) =
      post.foldl (orchStep writeOk)
        (orchStep writeOk (pre.foldl (orchStep writeOk) initOrch) u) := by
    rw [run_all, List.foldl_append, List.foldl_cons]
  have hfin : run_all writeOk (pre ++ u :: post) =
      orchStep writeOk (pre.foldl (orchStep writeOk) initOrch) u := by
    rw [hrw, foldl_orchStep_aborted writeOk post _ hstep.1]
  refine ⟨hex, hlog, hcon, ?_, h1.2.2.2, fun name msg => rfl, ?_, ?_⟩
  · rw [hlog, hcon, List.length_map, List.length_map]
    exact length_filter_bool_split (fun t => writeOk t.name) tasks
  · rw [hfin, hstep.2, h2.1]
    rfl
  · rw [hfin, hstep.1]

/-- Witness for C6 at a concrete three-task run (task 2 raises, the log
write for task 3 fails) and a concrete auth-fatal run. -/
theorem run_all_exactly_once_continues_witness :
    (run_all (fun n => !(n == "t3"))
      [⟨"t1", .ok 5⟩, ⟨"t2", .exn "boom"⟩, ⟨"t3", .ok 7⟩]).executed =
      ["t1", "t2", "t3"] ∧
    (run_all (fun n => !(n == "t3"))
      [⟨"t1", .ok 5⟩, ⟨"t2", .exn "boom"⟩, ⟨"t3", .ok 7⟩]).logs =
      [⟨"t1", "success", 5, none⟩, ⟨"t2", "failed", 0, some "boom"⟩] ∧
    (run_all (fun n => !(n == "t3"))
      [⟨"t1", .ok 5⟩, ⟨"t2", .exn "boom"⟩, ⟨"t3", .ok 7⟩]).console =
      [⟨"t3", "success", 7, none⟩] ∧
    (run_all (fun n => !(n == "t3"))
      [⟨"t1", .ok 5⟩, ⟨"t2", .exn "boom"⟩, ⟨"t3", .ok 7⟩]).aborted = false ∧
    (run_all (fun n => !(n == "t3"))
      [⟨"t1", .ok 5⟩, ⟨"t2", .authFatal "401"⟩, ⟨"t3", .ok 7⟩]).executed =
      ["t1", "t2"] ∧
    (run_all (fun n => !(n == "t3"))
      [⟨"t1", .ok 5⟩, ⟨"t2", .authFatal "401"⟩, ⟨"t3", .ok 7⟩]).aborted = true := by
  have h := run_all_exactly_once_continues (fun n => !(n == "t3"))
    [⟨"t1", .ok 5⟩, ⟨"t2", .exn "boom"⟩, ⟨"t3", .ok 7⟩]
    [⟨"t1", .ok 5⟩] [⟨"t3", .ok 7⟩] ⟨"t2", .authFatal "401"⟩ "401"
    (by decide) (by decide) (by decide)
  refine ⟨?_, ?_, ?_, h.2.2.2.2.1, ?_, h.2.2.2.2.2.2.2⟩
  · rw [h.1]
    rfl
  · rw [h.2.1]
    rfl
  · rw [h.2.2.1]
    rfl
  · exact h.2.2.2.2.2.2.1

theorem itemGet_eq_zero_of_absent (item : List (String × ℚ)) (field : String)
    (h : ∀ kv ∈ item, kv.1 ≠ field) : itemGet item field = 0 := by
  have hfind : item.find? (fun kv => kv.1 == field) = none := by
    rw [List.find?_eq_none]
    intro kv hkv hbeq
    exact h kv hkv (eq_of_beq hbeq)
  rw [itemGet, hfind]

/-- C7: the transformer field mapping has entries whose provider field name
does not match any field the provider actually returns: the cash-flow
mapping uses the misspelled netCashUsedForInvestingActivites and the
profile mapping uses mktCap instead of marketCap, so for every provider
payload whose keys are field names the provider actually returns the transformed
value of the affected column is the all-zero default. -/
theorem field_mapping_typo_produces_zero
    (item item2 : List (String × ℚ))
    (hitem : ∀ kv ∈ item, kv.1 ∈ providerCashFlowFields)
    (hitem2 : ∀ kv ∈ item2, kv.1 ∈ providerProfileFields) :
    ("investing_cash_flow", "netCashUsedForInvestingActivites") ∈
      cashFlowFieldMapping ∧
    "netCashUsedForInvestingActivites" ∉ providerCashFlowFields ∧
    transformField cashFlowFieldMapping "investing_cash_flow" item = 0 ∧
    ("market_cap", "mktCap") ∈ profileFieldMapping ∧
    "mktCap" ∉ providerProfileFields ∧
    transformField profileFieldMapping "market_cap" item2 = 0 := by
  refine ⟨by decide, by decide, ?_, by decide, by decide, ?_⟩
  · have h1 : transformField cashFlowFieldMapping "investing_cash_flow" item =
        itemGet item "netCashUsedForInvestingActivites" := rfl
    rw [h1]
    apply itemGet_eq_zero_of_absent
    intro kv hkv heq
    have hmem := hitem kv hkv
    rw [heq] at hmem
    revert hmem
    decide
  · have h2 : transformField profileFieldMapping "market_cap" item2 =
        itemGet item2 "mktCap" := rfl
    rw [h2]
    apply itemGet_eq_zero_of_absent
    intro kv hkv heq
    have hmem := hitem2 kv hkv
    rw [heq] at hmem
    revert hmem
    decide

/-- Witness for C7 at concrete provider payloads that use the field names
the provider actually returns. -/
theorem field_mapping_typo_produces_zero_witness :
    ("investing_cash_flow", "netCashUsedForInvestingActivites") ∈
      cashFlowFieldMapping ∧
    "netCashUsedForInvestingActivites" ∉ providerCashFlowFields ∧
    transformField cashFlowFieldMapping "investing_cash_flow"
      [("netCashUsedForInvestingActivities", 5)] = 0 ∧
    ("market_cap", "mktCap") ∈ profileFieldMapping ∧
    "mktCap" ∉ providerProfileFields ∧
    transformField profileFieldMapping "market_cap" [("marketCap", 7)] = 0 :=
  field_mapping_typo_produces_zero
    [("netCashUsedForInvestingActivities", 5)] [("marketCap", 7)]
    (by decide) (by decide)

theorem conc_conservation (C : ℕ) (units : List String) (s : ConcState)
    (h : ConcReachable C units s) :
    List.Perm (s.pending ++ (s.inFlight ++ s.done.map Prod.fst)) units := by
  induction h with
  | init => simp
  | step hr hs ih =>
    refine List.Perm.trans ?_ ih
    cases hs with
    | start u rest fl dn hlt =>
      rw [List.perm_iff_count]
      intro a
      simp only [List.count_append, List.count_cons]
      by_cases ha : a = u <;> simp [ha] <;> ring
    | finish b pend l1 l2 u dn =>
      rw [List.perm_iff_count]
      intro a
      simp only [List.count_append, List.count_cons, List.map_append,
        List.map_cons]
      by_cases ha : a = u <;> simp [ha, List.count_append, List.count_cons] <;>
        ring

theorem conc_cap_invariant (C : ℕ) (units : List String) (s : ConcState)
    (h : ConcReachable C units s) : s.inFlight.length ≤ C := by
  induction h with
  | init => simp
  | step hr hs ih =>
    cases hs with
    | start u rest fl dn hlt =>
      simp only [List.length_append, List.length_singleton]
      omega
    | finish b pend l1 l2 u dn =>
      simp only [List.length_append, List.length_cons] at ih ⊢
      omega

theorem no_step_of_final (C : ℕ) (dn : List (String × Bool)) :
    ∀ s2, ¬ ConcStep C ⟨[], [], dn⟩ s2 := by
  intro s2
  generalize hsrc : (ConcState.mk [] [] dn) = s1
  intro h
  cases h with
  | start u rest fl dn2 hlt =>
    have h2 := congrArg ConcState.pending hsrc
    simp at h2
  | finish b pend l1 l2 u dn2 =>
    have h2 := congrArg ConcState.inFlight hsrc
    simp at h2

/-- C8: in the semaphore-capped scheduler, at no reachable point of a run
are more than C fetches in flight simultaneously, and a slot is released on
every completion path (a finish step exists for both outcomes), so when a
run with C at least 1 can take no further step, the work list is exhausted,
no slot is leaked in flight, and every unit has completed with an accounted
outcome (the completed keys are a permutation of the work list). -/
theorem bounded_concurrency_cap_and_completion (C : ℕ) (units : List String)
    (s : ConcState) (h : ConcReachable C units s) :
    s.inFlight.length ≤ C ∧
    (1 ≤ C → (∀ s2, ¬ ConcStep C s s2) →
      s.pending = [] ∧ s.inFlight = [] ∧
      List.Perm (s.done.map Prod.fst) units) := by
  refine ⟨conc_cap_invariant C units s h, ?_⟩
  intro hC hstuck
  obtain ⟨pend, fl, dn⟩ := s
  have hfl : fl = [] := by
    by_contra hne
    rcases List.exists_cons_of_ne_nil hne with ⟨u, l2, rfl⟩
    exact hstuck ⟨pend, [] ++ l2, dn ++ [(u, true)]⟩
      (ConcStep.finish true pend [] l2 u dn)
  subst hfl
  have hpend : pend = [] := by
    by_contra hne
    rcases List.exists_cons_of_ne_nil hne with ⟨u, rest, rfl⟩
    have hlen : ([] : List String).length < C := by simpa using hC
    exact hstuck ⟨rest, [] ++ [u], dn⟩ (ConcStep.start u rest [] dn hlen)
  subst hpend
  have hcons := conc_conservation C units ⟨[], [], dn⟩ h
  simp only [List.nil_append] at hcons
  exact ⟨rfl, rfl, hcons⟩

/-- Witness for C8: a one-unit run under cap 1, driven to its final state. -/
theorem bounded_concurrency_cap_and_completion_witness :
    ConcReachable 1 ["A"] ⟨[], [], [("A", true)]⟩ ∧
    (⟨[], [], [("A", true)]⟩ : ConcState).inFlight.length ≤ 1 ∧
    (⟨[], [], [("A", true)]⟩ : ConcState).pending = [] ∧
    (⟨[], [], [("A", true)]⟩ : ConcState).inFlight = [] ∧
    List.Perm ((⟨[], [], [("A", true)]⟩ : ConcState).done.map Prod.fst)
      ["A"] := by
  have hreach : ConcReachable 1 ["A"] ⟨[], [], [("A", true)]⟩ :=
    ConcReachable.step
      (ConcReachable.step ConcReachable.init
        (ConcStep.start "A" [] [] [] (by norm_num)))
      (ConcStep.finish true [] [] [] "A" [])
  have h := bounded_concurrency_cap_and_completion 1 ["A"] _ hreach
  have h2 := h.2 (by norm_num) (no_step_of_final 1 [("A", true)])
  exact ⟨hreach, h.1, h2.1, h2.2.1, h2.2.2⟩

/-- C9: a sendQuery call with a query that trims to the empty string, or
made while a previous request is still in flight, returns at once without
issuing any HTTP request and without modifying any component state, so at
most one /api/ask request is in flight per session. -/
theorem sendQuery_guard_no_request (st : PageState) (q : String)
    (ev : FetchEvent) (h : jsTrim q = "" ∨ st.isLoading = true) :
    sendQuery st q ev = (st, false) := by
  rw [sendQuery, if_pos h]

/-- Witness for C9: a whitespace-only query, and a call while loading. -/
theorem sendQuery_guard_no_request_witness :
    (jsTrim "   " = "" ∨ (⟨[], "x", false, none⟩ : PageState).isLoading = true) ∧
    sendQuery ⟨[], "x", false, none⟩ "   " (.ok "hi") =
      ((⟨[], "x", false, none⟩ : PageState), false) ∧
    sendQuery ⟨[], "y", true, none⟩ "hello" (.ok "hi") =
      ((⟨[], "y", true, none⟩ : PageState), false) :=
  ⟨Or.inl (by decide),
    sendQuery_guard_no_request ⟨[], "x", false, none⟩ "   " (.ok "hi")
      (Or.inl (by decide)),
    sendQuery_guard_no_request ⟨[], "y", true, none⟩ "hello" (.ok "hi")
      (Or.inr rfl)⟩

/-- C10: a sendQuery call that issues a request appends the user message
before the request on every path (it is present even when the call fails),
resets isLoading to false on every path, and on a non-ok response or a
thrown exception appends no assistant message and sets the error state to
the error message (the message of the thrown value, with a fallback when it has
none). -/
theorem sendQuery_request_path (st : PageState) (q : String) (ev : FetchEvent)
    (hq : ¬(jsTrim q = "")) (hl : st.isLoading = false) :
    (sendQuery st q ev).2 = true ∧
    (sendQuery st q ev).1.isLoading = false ∧
    (∀ syn, ev = .ok syn → (sendQuery st q ev).1.messages =
      st.messages ++ [⟨"user", q⟩, ⟨"assistant", syn⟩] ∧
      (sendQuery st q ev).1.error = none) ∧
    (∀ s, ev = .httpError s → (sendQuery st q ev).1.messages =
      st.messages ++ [⟨"user", q⟩] ∧
      (sendQuery st q ev).1.error = some ("API error: " ++ toString s)) ∧
    (∀ m, ev = .threw m → (sendQuery st q ev).1.messages =
      st.messages ++ [⟨"user", q⟩] ∧
      (sendQuery st q ev).1.error =
        some (m.getD "An unexpected error occurred")) := by
  have hcond : ¬(jsTrim q = "" ∨ st.isLoading = true) := by
    rintro (h | h)
    · exact hq h
    · rw [hl] at h
      exact Bool.false_ne_true h
  cases ev with
  | ok syn =>
    refine ⟨?_, ?_, ?_, ?_, ?_⟩ <;> simp [sendQuery, hcond]
  | httpError s =>
    refine ⟨?_, ?_, ?_, ?_, ?_⟩ <;> simp [sendQuery, hcond]
  | threw m =>
    refine ⟨?_, ?_, ?_, ?_, ?_⟩ <;> simp [sendQuery, hcond]

/-- Witness for C10: a request that receives a 500 response. -/
theorem sendQuery_request_path_witness :
    ¬(jsTrim "hello" = "") ∧
    (sendQuery ⟨[⟨"user", "old"⟩], "q", false, some "stale"⟩ "hello"
      (.httpError 500)).2 = true ∧
    (sendQuery ⟨[⟨"user", "old"⟩], "q", false, some "stale"⟩ "hello"
      (.httpError 500)).1.isLoading = false ∧
    (sendQuery ⟨[⟨"user", "old"⟩], "q", false, some "stale"⟩ "hello"
      (.httpError 500)).1.messages =
      [⟨"user", "old"⟩] ++ [⟨"user", "hello"⟩] ∧
    (sendQuery ⟨[⟨"user", "old"⟩], "q", false, some "stale"⟩ "hello"
      (.httpError 500)).1.error = some ("API error: " ++ toString 500) := by
  have h := sendQuery_request_path ⟨[⟨"user", "old"⟩], "q", false, some "stale"⟩
    "hello" (.httpError 500) (by decide) rfl
  exact ⟨by decide, h.1, h.2.1, (h.2.2.2.1 500 rfl).1, (h.2.2.2.1 500 rfl).2⟩

end SmartStock
